import Mathlib

/-!
Shallow embedding of the Cooking Plan backend (`src/app.js`).

JS numbers are modelled as rationals (`ℚ`); JS strings as `String`;
the `Map` used by the basic shopping-list strategy as an insertion-ordered
association list; the recipe repository as a partial lookup function
`String → Option Recipe` (mirroring `MemoryRepository.getRecipe`).
-/

/-- Embedding of `class Ingredient` (fields `name`, `amount`, `unit`;
the constructor defaults `unit` to the empty string). -/
structure Ingredient where
  name : String
  amount : ℚ
  unit : String := ""
deriving Repr, DecidableEq

/-- JS `String.prototype.trim`: remove leading and trailing whitespace
(modelled on the character list underlying the string). -/
def strTrim (s : String) : String :=
  String.mk (((s.data.dropWhile Char.isWhitespace).reverse.dropWhile Char.isWhitespace).reverse)

/-- Embedding of `Ingredient.toString`:
`` `${this.amount} ${this.unit} ${this.name}`.trim() ``. -/
def Ingredient.render (i : Ingredient) : String :=
  strTrim (toString i.amount ++ " " ++ i.unit ++ " " ++ i.name)

/-- Embedding of `class Recipe`; the constructor initializes `rating = 0`
and `ratings = []`. -/
structure Recipe where
  id : String
  title : String
  ingredients : List Ingredient := []
  steps : List String := []
  tags : List String := []
  dietaryFlags : List String := []
  rating : ℚ := 0
  ratings : List ℚ := []
deriving Repr, DecidableEq

/-- Embedding of `Recipe.rate(rating)`: if `1 ≤ rating ≤ 5`, push the value,
recompute `this.rating = this.ratings.reduce((a, b) => a + b, 0) / this.ratings.length`
and return `true`; otherwise return `false` without mutating. The mutation of
`this` is modelled by returning the updated recipe alongside the boolean. -/
def Recipe.rate (r : Recipe) (rating : ℚ) : Recipe × Bool :=
  if 1 ≤ rating ∧ rating ≤ 5 then
    let ratings := r.ratings ++ [rating]
    ({ r with ratings := ratings,
              rating := ratings.foldl (fun a b => a + b) 0 / (ratings.length : ℚ) },
     true)
  else
    (r, false)

/-- Embedding of `class PlanEntry`. -/
structure PlanEntry where
  day : String
  recipeId : String
deriving Repr, DecidableEq

/-- Embedding of `class MealPlan` (the constructor defaults `entries` to `[]`
and sets `sharedWith = []`). -/
structure MealPlan where
  id : String
  userId : String
  name : String
  entries : List PlanEntry := []
  sharedWith : List String := []
deriving Repr, DecidableEq

/-- Embedding of `MealPlan.getRecipeIds()`:
`this.entries.map(entry => entry.recipeId).filter(id => id)`.
A JS string is truthy exactly when it is nonempty, so the truthiness filter
keeps the ids different from the empty string. -/
def MealPlan.getRecipeIds (p : MealPlan) : List String :=
  (p.entries.map (fun e => e.recipeId)).filter (fun id => id != "")

/-- The recipe repository as seen by the strategies: `getRecipe(id)` returns
the recipe or `undefined` (here `none`), mirroring `Map.get`. -/
abbrev RecipeRepo := String → Option Recipe

/-- Lookup on the repository (embedding of `MemoryRepository.getRecipe`). -/
def RecipeRepo.getRecipe (repo : RecipeRepo) (id : String) : Option Recipe :=
  repo id

/-- The merge key computed by `BasicShoppingListStrategy.generate`:
`` const key = `${ing.name}-${ing.unit}` ``. Note this is string
concatenation with a dash, not a pair. -/
def ingKey (name unit : String) : String :=
  name ++ "-" ++ unit

/-- One step of the accumulation into `ingredientsMap`: if the key is present,
add the amount onto the existing record (`existing.amount += ing.amount`);
otherwise append a fresh record `{name, amount, unit}` in insertion order
(JS `Map` iterates in insertion order and updating a key keeps its position,
which the first-match update of an association list reproduces). -/
def mergeInsert : List Ingredient → Ingredient → List Ingredient
  | [], ing => [⟨ing.name, ing.amount, ing.unit⟩]
  | existing :: rest, ing =>
    if ingKey existing.name existing.unit = ingKey ing.name ing.unit then
      { existing with amount := existing.amount + ing.amount } :: rest
    else
      existing :: mergeInsert rest ing

/-- Embedding of `BasicShoppingListStrategy.generate(mealPlan, recipeRepo)`.
The `if (recipe && recipe.ingredients)` guard only rules out a failed lookup:
`ingredients` is always an array (constructor default `[]`), and an array is
truthy in JS even when empty. -/
def BasicShoppingListStrategy.generate (mealPlan : MealPlan) (recipeRepo : RecipeRepo) :
    List Ingredient :=
  let recipeIds := mealPlan.getRecipeIds
  let ingredientsMap := recipeIds.foldl (fun acc recipeId =>
    match recipeRepo.getRecipe recipeId with
    | some recipe => recipe.ingredients.foldl mergeInsert acc
    | none => acc) []
  ingredientsMap.map (fun item => Ingredient.mk item.name item.amount item.unit)

/-- JS `String.prototype.includes` on our strings (substring test). -/
def strIncludes (s pat : String) : Bool :=
  s.data.tails.any (fun t => pat.data.isPrefixOf t)

/-- JS `String.prototype.toLowerCase` (the names in play are ASCII, where the
JS and Unicode lowercase maps agree with `Char.toLower`). -/
def strToLower (s : String) : String :=
  String.mk (s.data.map Char.toLower)

/-- The `nonVegan` denylist of `VeganShoppingListStrategy.generate`. -/
def nonVegan : List String :=
  ["meat", "chicken", "beef", "pork", "fish", "egg", "milk", "cheese", "butter", "honey"]

/-- Embedding of `VeganShoppingListStrategy.generate`: basic aggregation, then
drop every ingredient whose lower-cased name contains a denylist term. -/
def VeganShoppingListStrategy.generate (mealPlan : MealPlan) (recipeRepo : RecipeRepo) :
    List Ingredient :=
  let allIngredients := BasicShoppingListStrategy.generate mealPlan recipeRepo
  allIngredients.filter (fun ingredient =>
    !(nonVegan.any (fun item => strIncludes (strToLower ingredient.name) item)))

/-- The `gluten` denylist of `GlutenFreeShoppingListStrategy.generate`. -/
def gluten : List String :=
  ["wheat", "flour", "bread", "pasta", "barley", "rye"]

/-- Embedding of `GlutenFreeShoppingListStrategy.generate`. -/
def GlutenFreeShoppingListStrategy.generate (mealPlan : MealPlan) (recipeRepo : RecipeRepo) :
    List Ingredient :=
  let allIngredients := BasicShoppingListStrategy.generate mealPlan recipeRepo
  allIngredients.filter (fun ingredient =>
    !(gluten.any (fun item => strIncludes (strToLower ingredient.name) item)))

/-- Embedding of `ShoppingListStrategyFactory.createStrategy(type)`: the
`switch` maps the three known tokens and defaults to the basic strategy. -/
def ShoppingListStrategyFactory.createStrategy (type : String) :
    MealPlan → RecipeRepo → List Ingredient :=
  if type = "basic" then BasicShoppingListStrategy.generate
  else if type = "vegan" then VeganShoppingListStrategy.generate
  else if type = "glutenFree" then GlutenFreeShoppingListStrategy.generate
  else BasicShoppingListStrategy.generate

/-- The raw sequence of ingredient occurrences the basic aggregation consumes:
ingredients of every resolved recipe, in plan order; failed lookups contribute
nothing. -/
def planOccurrences (mealPlan : MealPlan) (recipeRepo : RecipeRepo) : List Ingredient :=
  mealPlan.getRecipeIds.flatMap (fun recipeId =>
    match recipeRepo.getRecipe recipeId with
    | some recipe => recipe.ingredients
    | none => [])

/-- Total amount carried by the occurrences of a given merge key in a list. -/
def keyAmountSum (l : List Ingredient) (k : String) : ℚ :=
  ((l.filter (fun i => ingKey i.name i.unit == k)).map (fun i => i.amount)).sum

/-- The keys, in order, of a list of ingredients. -/
def keysOf (l : List Ingredient) : List String :=
  l.map (fun i => ingKey i.name i.unit)

/-- The specification's vegan criterion, stated independently of the filter
code: the lower-cased name contains no denylist term as a substring. -/
def specVeganAllowed (i : Ingredient) : Prop :=
  ∀ term ∈ nonVegan, ¬ term.data <:+: (strToLower i.name).data

/-- The specification's gluten-free criterion, stated independently of the
filter code. -/
def specGlutenAllowed (i : Ingredient) : Prop :=
  ∀ term ∈ gluten, ¬ term.data <:+: (strToLower i.name).data

/-- A recipe with its dietary metadata (`tags`, `dietaryFlags`) erased; two
recipes agree "except for dietary metadata" when their erasures coincide. -/
def eraseDietaryMeta (r : Recipe) : Recipe :=
  { r with tags := [], dietaryFlags := [] }

/-- The Recipe invariant claimed by the spec: `rating` is the arithmetic mean
of `ratings`, or `0` when `ratings` is empty. -/
def ratingInvariant (r : Recipe) : Prop :=
  r.rating = if r.ratings = [] then 0 else r.ratings.sum / (r.ratings.length : ℚ)

/-- A finite sequence of `rate` calls, applied in order (failed calls leave
the recipe unchanged, exactly as in the code). -/
def applyRates (r : Recipe) (vs : List ℚ) : Recipe :=
  vs.foldl (fun r v => (r.rate v).1) r

/-- The mutable record `{name, amount, unit}` stored in a heap cell. -/
structure IngredientObj where
  name : String
  amount : ℚ
  unit : String
deriving Repr, DecidableEq

/-- A heap of ingredient records: `next` is the next fresh address, `cells`
the contents (addresses at or above `next` are unallocated scratch). -/
structure Heap where
  next : ℕ
  cells : ℕ → IngredientObj

/-- In-place field update of an allocated object. -/
def Heap.write (h : Heap) (a : ℕ) (o : IngredientObj) : Heap :=
  { h with cells := fun b => if b = a then o else h.cells b }

/-- Allocation of a fresh object (`new Ingredient(...)` or an object
literal); returns the fresh address and the extended heap. -/
def Heap.alloc (h : Heap) (o : IngredientObj) : ℕ × Heap :=
  (h.next, { next := h.next + 1, cells := fun b => if b = h.next then o else h.cells b })

/-- A stored recipe as the aggregator sees it: a list of ingredient-object
addresses (the remaining fields are irrelevant to the frame property). -/
structure HRecipe where
  ingredients : List ℕ

/-- The repository at heap level. -/
abbrev HRepo := String → Option HRecipe

/-- One `forEach` step of `BasicShoppingListStrategy.generate` on the heap:
look the key up in the insertion-ordered map (keys paired with record
addresses); on a hit, mutate the found record's `amount` in place
(`existing.amount += ing.amount`); on a miss, allocate the fresh record and
append its key. -/
def hMergeStep (st : Heap × List (String × ℕ)) (ingAddr : ℕ) : Heap × List (String × ℕ) :=
  let ing := st.1.cells ingAddr
  let key := ingKey ing.name ing.unit
  match st.2.find? (fun e => e.1 == key) with
  | some e =>
    (st.1.write e.2 { st.1.cells e.2 with amount := (st.1.cells e.2).amount + ing.amount },
     st.2)
  | none =>
    let a := st.1.alloc ⟨ing.name, ing.amount, ing.unit⟩
    (a.2, st.2 ++ [(key, a.1)])

/-- The nested `forEach` loops of the basic strategy, on the heap. -/
def hAggregate (mealPlan : MealPlan) (recipeRepo : HRepo) (st : Heap × List (String × ℕ)) :
    Heap × List (String × ℕ) :=
  mealPlan.getRecipeIds.foldl (fun st recipeId =>
    match recipeRepo recipeId with
    | some recipe => recipe.ingredients.foldl hMergeStep st
    | none => st) st

/-- The closing `Array.from(map.values()).map(item => new Ingredient(...))`:
read each merge record and allocate a fresh `Ingredient` for the result. -/
def hEmit (st : List ℕ × Heap) (e : String × ℕ) : List ℕ × Heap :=
  let item := st.2.cells e.2
  let a := st.2.alloc ⟨item.name, item.amount, item.unit⟩
  (st.1 ++ [a.1], a.2)

/-- Heap-level embedding of `BasicShoppingListStrategy.generate`: returns the
addresses of the freshly constructed result objects and the final heap. -/
def hGenerate (mealPlan : MealPlan) (recipeRepo : HRepo) (h : Heap) : List ℕ × Heap :=
  let st := hAggregate mealPlan recipeRepo (h, [])
  st.2.foldl hEmit ([], st.1)

/-- Heap-level embedding of `VeganShoppingListStrategy.generate`: run the
basic strategy, then `Array.prototype.filter` keeps references into the
result array whose cell's lower-cased name contains no denylist term — the
filter only reads cells, allocating and writing nothing. -/
def hVeganGenerate (mealPlan : MealPlan) (recipeRepo : HRepo) (h : Heap) : List ℕ × Heap :=
  let st := hGenerate mealPlan recipeRepo h
  (st.1.filter (fun a =>
    !(nonVegan.any (fun item => strIncludes (strToLower (st.2.cells a).name) item))), st.2)

/-- Heap-level embedding of `GlutenFreeShoppingListStrategy.generate`. -/
def hGlutenFreeGenerate (mealPlan : MealPlan) (recipeRepo : HRepo) (h : Heap) :
    List ℕ × Heap :=
  let st := hGenerate mealPlan recipeRepo h
  (st.1.filter (fun a =>
    !(gluten.any (fun item => strIncludes (strToLower (st.2.cells a).name) item))), st.2)

/-- Heap-level embedding of `ShoppingListStrategyFactory.createStrategy`:
the same token dispatch, over the heap-level strategies. -/
def hCreateStrategy (type : String) : MealPlan → HRepo → Heap → List ℕ × Heap :=
  if type = "basic" then hGenerate
  else if type = "vegan" then hVeganGenerate
  else if type = "glutenFree" then hGlutenFreeGenerate
  else hGenerate

/-- Frame statement for one heap-level strategy: pre-existing cells (hence
every cell a stored recipe's ingredient addresses can reach) are unchanged,
and all returned addresses are freshly allocated. -/
def HeapFrameOk (gen : MealPlan → HRepo → Heap → List ℕ × Heap)
    (p : MealPlan) (repo : HRepo) (h : Heap) : Prop :=
  (∀ a, a < h.next → (gen p repo h).2.cells a = h.cells a) ∧
    (∀ id r, repo id = some r → ∀ a ∈ r.ingredients, a < h.next →
      (gen p repo h).2.cells a = h.cells a) ∧
    (∀ a ∈ (gen p repo h).1, h.next ≤ a)

/-- The run so far has only extended the heap: `next` did not decrease and no
cell below the original `next` changed. -/
def HeapExtends (h₀ h : Heap) : Prop :=
  h₀.next ≤ h.next ∧ ∀ a, a < h₀.next → h.cells a = h₀.cells a

/-- Every address recorded in the merge map was allocated during the run. -/
def EntriesFresh (h₀ : Heap) (st : Heap × List (String × ℕ)) : Prop :=
  ∀ e ∈ st.2, h₀.next ≤ e.2 ∧ e.2 < st.1.next

/-- Sample recipe mirroring the repository's own demo data. -/
def stirFry : Recipe :=
  { id := "A", title := "Vegetable Stir Fry",
    ingredients := [⟨"Broccoli", 200, "g"⟩, ⟨"Soy Sauce", 3, "tbsp"⟩] }

/-- Second sample recipe sharing the Soy Sauce ingredient. -/
def garlicDish : Recipe :=
  { id := "B", title := "Garlic Dish",
    ingredients := [⟨"Soy Sauce", 1, "tbsp"⟩, ⟨"Garlic", 2, "cloves"⟩] }

/-- A two-recipe store. -/
def sampleRepo : RecipeRepo := fun id =>
  if id = "A" then some stirFry else if id = "B" then some garlicDish else none

/-- A plan referencing both sample recipes. -/
def samplePlan : MealPlan :=
  { id := "p1", userId := "u1", name := "week",
    entries := [⟨"Mon", "A"⟩, ⟨"Tue", "B"⟩] }

/-- The same plan with its entries in the opposite order. -/
def samplePlanSwapped : MealPlan :=
  { id := "p1", userId := "u1", name := "week",
    entries := [⟨"Tue", "B"⟩, ⟨"Mon", "A"⟩] }

/-- A recipe whose two ingredients have distinct (name, unit) pairs but the
same concatenated merge-key string: "x-y" + "-" + "z" and "x" + "-" + "y-z". -/
def collideRecipe1 : Recipe :=
  { id := "R1", title := "Key Collision 1",
    ingredients := [⟨"x-y", 1, "z"⟩, ⟨"x", 2, "y-z"⟩] }

/-- Store holding only the first collision recipe. -/
def collideRepo1 : RecipeRepo := fun id =>
  if id = "R1" then some collideRecipe1 else none

/-- Plan referencing the first collision recipe. -/
def collidePlan1 : MealPlan :=
  { id := "pc1", userId := "u1", name := "c1", entries := [⟨"Mon", "R1"⟩] }

/-- A second collision fixture, with names "a-b"/"a" and units "c"/"b-c". -/
def collideRecipe2 : Recipe :=
  { id := "R2", title := "Key Collision 2",
    ingredients := [⟨"a-b", 1, "c"⟩, ⟨"a", 2, "b-c"⟩] }

/-- Store holding only the second collision recipe. -/
def collideRepo2 : RecipeRepo := fun id =>
  if id = "R2" then some collideRecipe2 else none

/-- Plan referencing the second collision recipe. -/
def collidePlan2 : MealPlan :=
  { id := "pc2", userId := "u1", name := "c2", entries := [⟨"Mon", "R2"⟩] }

/-- A recipe containing a non-vegan ingredient, flagged "vegan" on purpose. -/
def taggedChicken : Recipe :=
  { id := "C", title := "Grilled Chicken",
    ingredients := [⟨"Chicken Breast", 2, ""⟩, ⟨"Garlic", 3, "cloves"⟩],
    tags := ["protein"], dietaryFlags := ["vegan"] }

/-- The same recipe with no tags or dietary flags. -/
def plainChicken : Recipe :=
  { id := "C", title := "Grilled Chicken",
    ingredients := [⟨"Chicken Breast", 2, ""⟩, ⟨"Garlic", 3, "cloves"⟩] }

/-- Store holding the flagged chicken recipe. -/
def taggedRepo : RecipeRepo := fun id =>
  if id = "C" then some taggedChicken else none

/-- Store holding the unflagged chicken recipe. -/
def plainRepo : RecipeRepo := fun id =>
  if id = "C" then some plainChicken else none

/-- Plan referencing the chicken recipe. -/
def chickenPlan : MealPlan :=
  { id := "pch", userId := "u1", name := "ch", entries := [⟨"Mon", "C"⟩] }

/-- A plan with an empty reference and a dangling reference besides a live one. -/
def danglingPlan : MealPlan :=
  { id := "pd", userId := "u1", name := "d",
    entries := [⟨"Mon", "A"⟩, ⟨"Tue", ""⟩, ⟨"Wed", "ghost"⟩] }

/-- A one-cell heap holding a single ingredient object at address 0. -/
def heapW : Heap :=
  { next := 1, cells := fun a => if a = 0 then ⟨"Tomato", 2, ""⟩ else ⟨"", 0, ""⟩ }

/-- Heap-level store with one recipe pointing at address 0. -/
def hRepoW : HRepo := fun id =>
  if id = "T" then some ⟨[0]⟩ else none

/-- Plan referencing the heap-level recipe. -/
def hPlanW : MealPlan :=
  { id := "ph", userId := "u1", name := "h", entries := [⟨"Mon", "T"⟩] }

/-!
### Theorems
-/

theorem ingKey_unit_inj {n u₁ u₂ : String} (h : ingKey n u₁ = ingKey n u₂) : u₁ = u₂ := by
  apply String.ext
  have h' := congrArg String.data h
  simp only [ingKey, String.data_append, List.append_assoc] at h'
  exact List.append_cancel_left (List.append_cancel_left h')

theorem keyAmountSum_nil (k : String) : keyAmountSum [] k = 0 := rfl

theorem keyAmountSum_cons (i : Ingredient) (l : List Ingredient) (k : String) :
    keyAmountSum (i :: l) k =
      (if ingKey i.name i.unit = k then i.amount else 0) + keyAmountSum l k := by
  by_cases h : ingKey i.name i.unit = k
  · simp [keyAmountSum, List.filter_cons, h]
  · simp [keyAmountSum, List.filter_cons, h]

theorem keyAmountSum_append (l₁ l₂ : List Ingredient) (k : String) :
    keyAmountSum (l₁ ++ l₂) k = keyAmountSum l₁ k + keyAmountSum l₂ k := by
  simp [keyAmountSum, List.filter_append, List.map_append, List.sum_append]

theorem keyAmountSum_mergeInsert (acc : List Ingredient) (ing : Ingredient) (k : String) :
    keyAmountSum (mergeInsert acc ing) k =
      keyAmountSum acc k + (if ingKey ing.name ing.unit = k then ing.amount else 0) := by
  induction acc with
  | nil =>
    simp [mergeInsert, keyAmountSum_cons, keyAmountSum_nil]
  | cons existing rest ih =>
    by_cases h : ingKey existing.name existing.unit = ingKey ing.name ing.unit
    · simp only [mergeInsert, if_pos h, keyAmountSum_cons]
      rw [h]
      by_cases hk : ingKey ing.name ing.unit = k
      · simp only [if_pos hk]; ring
      · simp only [if_neg hk]; ring
    · simp only [mergeInsert, if_neg h, keyAmountSum_cons, ih]
      ring

theorem keyAmountSum_foldl_mergeInsert (l : List Ingredient) (acc : List Ingredient)
    (k : String) :
    keyAmountSum (l.foldl mergeInsert acc) k = keyAmountSum acc k + keyAmountSum l k := by
  induction l generalizing acc with
  | nil => simp [keyAmountSum_nil]
  | cons i t ih =>
    rw [List.foldl_cons, ih, keyAmountSum_mergeInsert, keyAmountSum_cons]
    ring

theorem basic_generate_eq (p : MealPlan) (repo : RecipeRepo) :
    BasicShoppingListStrategy.generate p repo =
      p.getRecipeIds.foldl (fun acc recipeId =>
        match repo.getRecipe recipeId with
        | some recipe => recipe.ingredients.foldl mergeInsert acc
        | none => acc) [] := by
  have hmk : (fun item : Ingredient => Ingredient.mk item.name item.amount item.unit) = id := by
    funext i; cases i; rfl
  unfold BasicShoppingListStrategy.generate
  rw [hmk, List.map_id]

theorem keyAmountSum_aggFold (repo : RecipeRepo) (ids : List String)
    (acc : List Ingredient) (k : String) :
    keyAmountSum (ids.foldl (fun acc recipeId =>
        match repo.getRecipe recipeId with
        | some recipe => recipe.ingredients.foldl mergeInsert acc
        | none => acc) acc) k
      = keyAmountSum acc k +
        keyAmountSum (ids.flatMap (fun recipeId =>
          match repo.getRecipe recipeId with
          | some recipe => recipe.ingredients
          | none => [])) k := by
  induction ids generalizing acc with
  | nil => simp [keyAmountSum_nil]
  | cons i t ih =>
    rw [List.foldl_cons, List.flatMap_cons, keyAmountSum_append]
    cases h : repo.getRecipe i with
    | none => simp only [h]; rw [ih]; simp [keyAmountSum_nil]
    | some r => simp only [h]; rw [ih, keyAmountSum_foldl_mergeInsert]; ring

theorem keyAmountSum_generate (p : MealPlan) (repo : RecipeRepo) (k : String) :
    keyAmountSum (BasicShoppingListStrategy.generate p repo) k =
      keyAmountSum (planOccurrences p repo) k := by
  rw [basic_generate_eq]
  have h := keyAmountSum_aggFold repo p.getRecipeIds [] k
  simpa [planOccurrences, keyAmountSum_nil] using h

theorem keyAmountSum_flatMap (f : String → List Ingredient) (ids : List String) (k : String) :
    keyAmountSum (ids.flatMap f) k = (ids.map (fun i => keyAmountSum (f i) k)).sum := by
  induction ids with
  | nil => simp [keyAmountSum_nil]
  | cons i t ih => rw [List.flatMap_cons, keyAmountSum_append, List.map_cons, List.sum_cons, ih]

theorem getRecipeIds_perm {p q : MealPlan} (h : p.entries.Perm q.entries) :
    p.getRecipeIds.Perm q.getRecipeIds := by
  unfold MealPlan.getRecipeIds
  exact (h.map (fun e => e.recipeId)).filter (fun id => id != "")

theorem keyAmountSum_occurrences_perm {p q : MealPlan} (repo : RecipeRepo)
    (h : p.entries.Perm q.entries) (k : String) :
    keyAmountSum (planOccurrences p repo) k = keyAmountSum (planOccurrences q repo) k := by
  unfold planOccurrences
  rw [keyAmountSum_flatMap, keyAmountSum_flatMap]
  exact ((getRecipeIds_perm h).map _).sum_eq

theorem mem_keysOf_mergeInsert (acc : List Ingredient) (ing : Ingredient) (k : String) :
    k ∈ keysOf (mergeInsert acc ing) ↔
      k ∈ keysOf acc ∨ k = ingKey ing.name ing.unit := by
  induction acc with
  | nil => simp [mergeInsert, keysOf]
  | cons existing rest ih =>
    by_cases h : ingKey existing.name existing.unit = ingKey ing.name ing.unit
    · simp only [mergeInsert, if_pos h, keysOf, List.map_cons, List.mem_cons] at *
      constructor
      · intro hc; exact Or.inl hc
      · rintro (hc | hc)
        · exact hc
        · exact Or.inl (hc.trans h.symm)
    · simp only [mergeInsert, if_neg h, keysOf, List.map_cons, List.mem_cons] at *
      rw [ih]
      tauto

theorem nodup_keysOf_mergeInsert (acc : List Ingredient) (ing : Ingredient)
    (h : (keysOf acc).Nodup) : (keysOf (mergeInsert acc ing)).Nodup := by
  induction acc with
  | nil => simp [mergeInsert, keysOf]
  | cons existing rest ih =>
    simp only [keysOf, List.map_cons, List.nodup_cons] at h
    by_cases he : ingKey existing.name existing.unit = ingKey ing.name ing.unit
    · simp only [mergeInsert, if_pos he, keysOf, List.map_cons, List.nodup_cons]
      exact ⟨h.1, h.2⟩
    · simp only [mergeInsert, if_neg he, keysOf, List.map_cons, List.nodup_cons]
      refine ⟨fun hm => ?_, ih h.2⟩
      rcases (mem_keysOf_mergeInsert rest ing _).mp hm with hc | hc
      · exact h.1 hc
      · exact he hc

theorem mem_keysOf_foldl_mergeInsert (l acc : List Ingredient) (k : String) :
    k ∈ keysOf (l.foldl mergeInsert acc) ↔ k ∈ keysOf acc ∨ k ∈ keysOf l := by
  induction l generalizing acc with
  | nil => simp [keysOf]
  | cons i t ih =>
    rw [List.foldl_cons, ih, mem_keysOf_mergeInsert]
    simp only [keysOf, List.map_cons, List.mem_cons]
    tauto

theorem nodup_keysOf_foldl_mergeInsert (l acc : List Ingredient)
    (h : (keysOf acc).Nodup) : (keysOf (l.foldl mergeInsert acc)).Nodup := by
  induction l generalizing acc with
  | nil => exact h
  | cons i t ih => exact ih _ (nodup_keysOf_mergeInsert acc i h)

theorem mem_keysOf_aggFold (repo : RecipeRepo) (ids : List String)
    (acc : List Ingredient) (k : String) :
    k ∈ keysOf (ids.foldl (fun acc recipeId =>
        match repo.getRecipe recipeId with
        | some recipe => recipe.ingredients.foldl mergeInsert acc
        | none => acc) acc) ↔
      k ∈ keysOf acc ∨
        k ∈ keysOf (ids.flatMap (fun recipeId =>
          match repo.getRecipe recipeId with
          | some recipe => recipe.ingredients
          | none => [])) := by
  induction ids generalizing acc with
  | nil => simp [keysOf]
  | cons i t ih =>
    rw [List.foldl_cons, List.flatMap_cons]
    cases h : repo.getRecipe i with
    | none => simp only [h]; rw [ih]; simp [keysOf]
    | some r =>
      simp only [h]
      rw [ih, mem_keysOf_foldl_mergeInsert]
      simp only [keysOf, List.map_append, List.mem_append]
      tauto

theorem nodup_keysOf_aggFold (repo : RecipeRepo) (ids : List String)
    (acc : List Ingredient) (h : (keysOf acc).Nodup) :
    (keysOf (ids.foldl (fun acc recipeId =>
        match repo.getRecipe recipeId with
        | some recipe => recipe.ingredients.foldl mergeInsert acc
        | none => acc) acc)).Nodup := by
  induction ids generalizing acc with
  | nil => exact h
  | cons i t ih =>
    rw [List.foldl_cons]
    cases hi : repo.getRecipe i with
    | none => simp only [hi]; exact ih _ h
    | some r => simp only [hi]; exact ih _ (nodup_keysOf_foldl_mergeInsert _ _ h)

theorem nodup_keysOf_generate (p : MealPlan) (repo : RecipeRepo) :
    (keysOf (BasicShoppingListStrategy.generate p repo)).Nodup := by
  rw [basic_generate_eq]
  exact nodup_keysOf_aggFold repo p.getRecipeIds [] (by simp [keysOf])

theorem mem_keysOf_generate (p : MealPlan) (repo : RecipeRepo) (k : String) :
    k ∈ keysOf (BasicShoppingListStrategy.generate p repo) ↔
      k ∈ keysOf (planOccurrences p repo) := by
  rw [basic_generate_eq]
  have h := mem_keysOf_aggFold repo p.getRecipeIds [] k
  simpa [planOccurrences, keysOf] using h

theorem strIncludes_iff (s pat : String) :
    strIncludes s pat = true ↔ pat.data <:+: s.data := by
  unfold strIncludes
  rw [List.any_eq_true]
  constructor
  · rintro ⟨t, ht, hp⟩
    exact List.infix_iff_prefix_suffix.mpr
      ⟨t, List.isPrefixOf_iff_prefix.mp hp, (List.mem_tails _ _).mp ht⟩
  · intro h
    rcases List.infix_iff_prefix_suffix.mp h with ⟨t, hp, hs⟩
    exact ⟨t, (List.mem_tails _ _).mpr hs, List.isPrefixOf_iff_prefix.mpr hp⟩

theorem veganKeep_iff (i : Ingredient) :
    (!(nonVegan.any (fun item => strIncludes (strToLower i.name) item))) = true ↔
      specVeganAllowed i := by
  rw [Bool.not_eq_true', List.any_eq_false]
  unfold specVeganAllowed
  constructor
  · intro h term ht hc
    exact h term ht ((strIncludes_iff _ _).mpr hc)
  · intro h term ht hc
    exact h term ht ((strIncludes_iff _ _).mp hc)

theorem glutenKeep_iff (i : Ingredient) :
    (!(gluten.any (fun item => strIncludes (strToLower i.name) item))) = true ↔
      specGlutenAllowed i := by
  rw [Bool.not_eq_true', List.any_eq_false]
  unfold specGlutenAllowed
  constructor
  · intro h term ht hc
    exact h term ht ((strIncludes_iff _ _).mpr hc)
  · intro h term ht hc
    exact h term ht ((strIncludes_iff _ _).mp hc)

theorem aggFold_skip_unresolved (repo : RecipeRepo) (ids : List String)
    (acc : List Ingredient) :
    ids.foldl (fun acc recipeId =>
        match repo.getRecipe recipeId with
        | some recipe => recipe.ingredients.foldl mergeInsert acc
        | none => acc) acc =
      (ids.filter (fun id => (repo.getRecipe id).isSome)).foldl (fun acc recipeId =>
        match repo.getRecipe recipeId with
        | some recipe => recipe.ingredients.foldl mergeInsert acc
        | none => acc) acc := by
  induction ids generalizing acc with
  | nil => rfl
  | cons i t ih =>
    rw [List.foldl_cons, List.filter_cons]
    cases h : repo.getRecipe i with
    | none =>
      simp only [h, Option.isSome_none, Bool.false_eq_true, if_false]
      exact ih acc
    | some r =>
      simp only [h, Option.isSome_some, if_true, List.foldl_cons]
      exact ih _

theorem recipeIds_filter_aux (repo : RecipeRepo) (l : List PlanEntry) :
    ((l.filter (fun e => e.recipeId != "" && (repo.getRecipe e.recipeId).isSome)).map
        (fun e => e.recipeId)).filter (fun id => id != "") =
      ((l.map (fun e => e.recipeId)).filter (fun id => id != "")).filter
        (fun id => (repo.getRecipe id).isSome) := by
  induction l with
  | nil => rfl
  | cons e t ih =>
    simp only [List.map_cons, List.filter_cons]
    by_cases h1 : e.recipeId = ""
    · simp [h1, ih]
    · by_cases h2 : (repo.getRecipe e.recipeId).isSome
      · simp [h1, h2, List.filter_cons, ih]
      · simp only [Bool.false_eq_true] at h2
        simp [h1, h2, List.filter_cons, ih]

theorem basic_generate_dangling (p : MealPlan) (repo : RecipeRepo) :
    BasicShoppingListStrategy.generate p repo =
      BasicShoppingListStrategy.generate
        (MealPlan.mk p.id p.userId p.name
          (p.entries.filter (fun e =>
            e.recipeId != "" && (repo.getRecipe e.recipeId).isSome))
          p.sharedWith) repo := by
  rw [basic_generate_eq, basic_generate_eq]
  unfold MealPlan.getRecipeIds
  simp only []
  rw [recipeIds_filter_aux repo p.entries]
  exact aggFold_skip_unresolved repo _ []

theorem eraseDietaryMeta_ingredients {r₁ r₂ : Recipe}
    (h : eraseDietaryMeta r₁ = eraseDietaryMeta r₂) : r₁.ingredients = r₂.ingredients := by
  have h' := congrArg Recipe.ingredients h
  simpa [eraseDietaryMeta] using h'

theorem aggFold_congr (repo₁ repo₂ : RecipeRepo)
    (h : ∀ id, (repo₁ id).map eraseDietaryMeta = (repo₂ id).map eraseDietaryMeta)
    (ids : List String) (acc : List Ingredient) :
    ids.foldl (fun acc recipeId =>
        match repo₁.getRecipe recipeId with
        | some recipe => recipe.ingredients.foldl mergeInsert acc
        | none => acc) acc =
      ids.foldl (fun acc recipeId =>
        match repo₂.getRecipe recipeId with
        | some recipe => recipe.ingredients.foldl mergeInsert acc
        | none => acc) acc := by
  induction ids generalizing acc with
  | nil => rfl
  | cons i t ih =>
    rw [List.foldl_cons, List.foldl_cons]
    have hi := h i
    cases h1 : repo₁ i with
    | none =>
      cases h2 : repo₂ i with
      | none =>
        simp only [RecipeRepo.getRecipe, h1, h2]
        exact ih _
      | some r₂ =>
        rw [h1, h2] at hi
        simp at hi
    | some r₁ =>
      cases h2 : repo₂ i with
      | none =>
        rw [h1, h2] at hi
        simp at hi
      | some r₂ =>
        rw [h1, h2] at hi
        simp only [Option.map_some', Option.some.injEq] at hi
        have hing := eraseDietaryMeta_ingredients hi
        simp only [RecipeRepo.getRecipe, h1, h2, hing]
        exact ih _

theorem basic_generate_congr (repo₁ repo₂ : RecipeRepo)
    (h : ∀ id, (repo₁ id).map eraseDietaryMeta = (repo₂ id).map eraseDietaryMeta)
    (p : MealPlan) :
    BasicShoppingListStrategy.generate p repo₁ = BasicShoppingListStrategy.generate p repo₂ := by
  rw [basic_generate_eq, basic_generate_eq]
  exact aggFold_congr repo₁ repo₂ h p.getRecipeIds []

theorem rate_apply_of_valid {r : Recipe} {v : ℚ} (h : 1 ≤ v ∧ v ≤ 5) :
    r.rate v =
      ({ r with
          ratings := r.ratings ++ [v],
          rating := (r.ratings ++ [v]).sum / (((r.ratings ++ [v]).length : ℕ) : ℚ) },
       true) := by
  unfold Recipe.rate
  rw [if_pos h]
  simp [List.sum_eq_foldl]

theorem rate_apply_of_invalid {r : Recipe} {v : ℚ} (h : ¬(1 ≤ v ∧ v ≤ 5)) :
    r.rate v = (r, false) := by
  unfold Recipe.rate
  rw [if_neg h]

theorem rate_preserves_invariant {r : Recipe} (hr : ratingInvariant r) (v : ℚ) :
    ratingInvariant (r.rate v).1 := by
  by_cases h : 1 ≤ v ∧ v ≤ 5
  · rw [rate_apply_of_valid h]
    simp [ratingInvariant]
  · rw [rate_apply_of_invalid h]
    exact hr

theorem applyRates_invariant (vs : List ℚ) :
    ∀ {r : Recipe}, ratingInvariant r → ratingInvariant (applyRates r vs) := by
  unfold applyRates
  induction vs with
  | nil => exact fun hr => hr
  | cons v t ih =>
    intro r hr
    rw [List.foldl_cons]
    exact ih (rate_preserves_invariant hr v)

theorem heapExtends_refl (h : Heap) : HeapExtends h h :=
  ⟨le_refl _, fun _ _ => rfl⟩

theorem write_heapExtends {h₀ h : Heap} {a : ℕ} (o : IngredientObj)
    (hx : HeapExtends h₀ h) (ha : h₀.next ≤ a) : HeapExtends h₀ (h.write a o) := by
  refine ⟨hx.1, fun b hb => ?_⟩
  unfold Heap.write
  simp only
  rw [if_neg (by omega)]
  exact hx.2 b hb

theorem alloc_heapExtends {h₀ h : Heap} (o : IngredientObj)
    (hx : HeapExtends h₀ h) : HeapExtends h₀ (h.alloc o).2 := by
  refine ⟨le_trans hx.1 (Nat.le_succ _), fun b hb => ?_⟩
  unfold Heap.alloc
  simp only
  rw [if_neg (by have := hx.1; omega)]
  exact hx.2 b hb

theorem hMergeStep_inv {h₀ : Heap} {st : Heap × List (String × ℕ)} (ingAddr : ℕ)
    (hx : HeapExtends h₀ st.1) (hf : EntriesFresh h₀ st) :
    HeapExtends h₀ (hMergeStep st ingAddr).1 ∧ EntriesFresh h₀ (hMergeStep st ingAddr) := by
  unfold hMergeStep
  cases hfind : st.2.find?
      (fun e => e.1 == ingKey (st.1.cells ingAddr).name (st.1.cells ingAddr).unit) with
  | some e =>
    simp only [hfind]
    have he := hf e (List.mem_of_find?_eq_some hfind)
    refine ⟨write_heapExtends _ hx he.1, fun e' he' => ?_⟩
    simpa [Heap.write] using hf e' he'
  | none =>
    simp only [hfind]
    refine ⟨alloc_heapExtends _ hx, fun e' he' => ?_⟩
    rcases List.mem_append.mp he' with hmem | hmem
    · have := hf e' hmem
      simp only [Heap.alloc]
      omega
    · simp only [List.mem_singleton] at hmem
      subst hmem
      simp only [Heap.alloc]
      exact ⟨hx.1, Nat.lt_succ_self _⟩

theorem hMergeFold_inv {h₀ : Heap} (addrs : List ℕ) (st : Heap × List (String × ℕ))
    (hx : HeapExtends h₀ st.1) (hf : EntriesFresh h₀ st) :
    HeapExtends h₀ (addrs.foldl hMergeStep st).1 ∧
      EntriesFresh h₀ (addrs.foldl hMergeStep st) := by
  induction addrs generalizing st with
  | nil => exact ⟨hx, hf⟩
  | cons a t ih =>
    rw [List.foldl_cons]
    have h1 := hMergeStep_inv a hx hf
    exact ih _ h1.1 h1.2

theorem hAggregate_inv (p : MealPlan) (repo : HRepo) {h₀ : Heap}
    (st : Heap × List (String × ℕ)) (hx : HeapExtends h₀ st.1) (hf : EntriesFresh h₀ st) :
    HeapExtends h₀ (hAggregate p repo st).1 ∧ EntriesFresh h₀ (hAggregate p repo st) := by
  unfold hAggregate
  induction p.getRecipeIds generalizing st with
  | nil => exact ⟨hx, hf⟩
  | cons i t ih =>
    rw [List.foldl_cons]
    cases hr : repo i with
    | none => simp only [hr]; exact ih _ hx hf
    | some r =>
      simp only [hr]
      have h1 := hMergeFold_inv r.ingredients st hx hf
      exact ih _ h1.1 h1.2

theorem hEmitFold_inv {h₀ : Heap} (entries : List (String × ℕ)) (st : List ℕ × Heap)
    (hx : HeapExtends h₀ st.2) (ha : ∀ a ∈ st.1, h₀.next ≤ a) :
    HeapExtends h₀ (entries.foldl hEmit st).2 ∧
      ∀ a ∈ (entries.foldl hEmit st).1, h₀.next ≤ a := by
  induction entries generalizing st with
  | nil => exact ⟨hx, ha⟩
  | cons e t ih =>
    rw [List.foldl_cons]
    refine ih _ (alloc_heapExtends _ hx) ?_
    intro a hmem
    rcases List.mem_append.mp hmem with hm | hm
    · exact ha a hm
    · simp only [List.mem_singleton] at hm
      subst hm
      simpa [Heap.alloc] using hx.1

theorem hGenerate_frame (p : MealPlan) (repo : HRepo) (h : Heap) :
    HeapExtends h (hGenerate p repo h).2 ∧
      ∀ a ∈ (hGenerate p repo h).1, h.next ≤ a := by
  unfold hGenerate
  have h1 := hAggregate_inv p repo (h, []) (heapExtends_refl h) (by intro e he; cases he)
  exact hEmitFold_inv _ _ h1.1 (by intro a ha; cases ha)

theorem hGenerate_frameOk (p : MealPlan) (repo : HRepo) (h : Heap) :
    HeapFrameOk hGenerate p repo h := by
  have hf := hGenerate_frame p repo h
  exact ⟨fun a ha => hf.1.2 a ha, fun id r _ a _ ha => hf.1.2 a ha, hf.2⟩

theorem hVeganGenerate_frameOk (p : MealPlan) (repo : HRepo) (h : Heap) :
    HeapFrameOk hVeganGenerate p repo h := by
  have hf := hGenerate_frame p repo h
  refine ⟨fun a ha => hf.1.2 a ha, fun id r _ a _ ha => hf.1.2 a ha, fun a ha => ?_⟩
  simp only [hVeganGenerate] at ha
  exact hf.2 a (List.mem_of_mem_filter ha)

theorem hGlutenFreeGenerate_frameOk (p : MealPlan) (repo : HRepo) (h : Heap) :
    HeapFrameOk hGlutenFreeGenerate p repo h := by
  have hf := hGenerate_frame p repo h
  refine ⟨fun a ha => hf.1.2 a ha, fun id r _ a _ ha => hf.1.2 a ha, fun a ha => ?_⟩
  simp only [hGlutenFreeGenerate] at ha
  exact hf.2 a (List.mem_of_mem_filter ha)

/-- Claim C1, counterexample: with the collision fixture the basic aggregation
returns a single entry of amount 3 recorded under the pair ("x-y", "z"),
although the occurrences whose (name, unit) pair is ("x-y", "z") sum to 1:
the code's merge key is the concatenated string, not the (name, unit) pair. -/
theorem C1_counterexample :
    BasicShoppingListStrategy.generate collidePlan1 collideRepo1 = [⟨"x-y", 3, "z"⟩] ∧
      ((planOccurrences collidePlan1 collideRepo1).filter
          (fun i => i.name == "x-y" && i.unit == "z")).map (fun i => i.amount) = [1] := by
  constructor
  · simp +decide [BasicShoppingListStrategy.generate, MealPlan.getRecipeIds, collidePlan1,
      collideRepo1, collideRecipe1, RecipeRepo.getRecipe, mergeInsert, ingKey]
    norm_num
  · decide

/-- Claim C1 (amended): for every meal plan and recipe store, the
consolidated amount recorded for each merge-key string `name ++ "-" ++ unit`
equals the sum of the individual amounts of all ingredient occurrences
sharing that key string across all resolved recipes referenced by the plan's
entries (duplicate recipe ids contribute once per occurrence), and permuting
the plan's entries does not change any consolidated total. -/
theorem C1_amended_consolidated_totals (p q : MealPlan) (repo : RecipeRepo) (k : String)
    (hperm : p.entries.Perm q.entries) :
    keyAmountSum (BasicShoppingListStrategy.generate p repo) k =
        keyAmountSum (planOccurrences p repo) k ∧
      keyAmountSum (BasicShoppingListStrategy.generate p repo) k =
        keyAmountSum (BasicShoppingListStrategy.generate q repo) k := by
  refine ⟨keyAmountSum_generate p repo k, ?_⟩
  rw [keyAmountSum_generate p repo k, keyAmountSum_generate q repo k]
  exact keyAmountSum_occurrences_perm repo hperm k

/-- Claim C1, witness: the amended theorem applied to the sample plan, its
entry-swapped variant and the Soy Sauce merge key. -/
theorem C1_witness :
    keyAmountSum (BasicShoppingListStrategy.generate samplePlan sampleRepo) "Soy Sauce-tbsp" =
        keyAmountSum (planOccurrences samplePlan sampleRepo) "Soy Sauce-tbsp" ∧
      keyAmountSum (BasicShoppingListStrategy.generate samplePlan sampleRepo) "Soy Sauce-tbsp" =
        keyAmountSum (BasicShoppingListStrategy.generate samplePlanSwapped sampleRepo)
          "Soy Sauce-tbsp" :=
  C1_amended_consolidated_totals samplePlan samplePlanSwapped sampleRepo
    "Soy Sauce-tbsp" (by decide)

/-- Claim C2, counterexample: the two occurrences in the collision fixture
have distinct (name, unit) pairs, yet the basic aggregation merges them into
a single entry, so the output does not contain one Ingredient per distinct
(name, unit) pair. -/
theorem C2_counterexample :
    (planOccurrences collidePlan2 collideRepo2).map (fun i => (i.name, i.unit)) =
        [("a-b", "c"), ("a", "b-c")] ∧
      (("a-b", "c") : String × String) ≠ ("a", "b-c") ∧
      BasicShoppingListStrategy.generate collidePlan2 collideRepo2 = [⟨"a-b", 3, "c"⟩] := by
  refine ⟨by decide, by decide, ?_⟩
  simp +decide [BasicShoppingListStrategy.generate, MealPlan.getRecipeIds, collidePlan2,
    collideRepo2, collideRecipe2, RecipeRepo.getRecipe, mergeInsert, ingKey]
  norm_num

/-- Claim C2 (amended): the basic aggregation's output contains exactly one
Ingredient per distinct merge-key string `name ++ "-" ++ unit` occurring
among the plan's resolved ingredient occurrences (an absent unit is the
empty string): the output's keys are duplicate-free and are exactly the
occurrence keys. For a fixed name, equal keys still force equal units, so
same-name different-unit occurrences are never merged; but distinct
(name, unit) pairs may share a key string and then are merged. -/
theorem C2_amended_one_entry_per_key (p : MealPlan) (repo : RecipeRepo) :
    (keysOf (BasicShoppingListStrategy.generate p repo)).Nodup ∧
      (∀ k, k ∈ keysOf (BasicShoppingListStrategy.generate p repo) ↔
        k ∈ keysOf (planOccurrences p repo)) ∧
      (∀ n u₁ u₂, ingKey n u₁ = ingKey n u₂ ↔ u₁ = u₂) := by
  refine ⟨nodup_keysOf_generate p repo, mem_keysOf_generate p repo, fun n u₁ u₂ => ?_⟩
  exact ⟨ingKey_unit_inj, fun h => by rw [h]⟩

/-- Claim C2, witness: the amended theorem applied to the sample fixture,
with the Soy Sauce key's membership discharged concretely. -/
theorem C2_witness :
    (keysOf (BasicShoppingListStrategy.generate samplePlan sampleRepo)).Nodup ∧
      "Soy Sauce-tbsp" ∈ keysOf (BasicShoppingListStrategy.generate samplePlan sampleRepo) :=
  ⟨(C2_amended_one_entry_per_key samplePlan sampleRepo).1,
   ((C2_amended_one_entry_per_key samplePlan sampleRepo).2.1 "Soy Sauce-tbsp").mpr (by decide)⟩

/-- Claim C3: each dietary filter returns the basic aggregation with exactly
the denylisted ingredients removed, in the basic result's order: the vegan
and gluten-free results are subsequences of the basic result, and an element
of the basic result is retained if and only if its lower-cased name contains
no term of the respective fixed denylist as a substring. -/
theorem C3_filters_are_denylist_restriction (p : MealPlan) (repo : RecipeRepo) :
    (VeganShoppingListStrategy.generate p repo).Sublist
        (BasicShoppingListStrategy.generate p repo) ∧
      (GlutenFreeShoppingListStrategy.generate p repo).Sublist
        (BasicShoppingListStrategy.generate p repo) ∧
      (∀ i ∈ BasicShoppingListStrategy.generate p repo,
        (i ∈ VeganShoppingListStrategy.generate p repo ↔ specVeganAllowed i)) ∧
      (∀ i ∈ BasicShoppingListStrategy.generate p repo,
        (i ∈ GlutenFreeShoppingListStrategy.generate p repo ↔ specGlutenAllowed i)) := by
  refine ⟨?_, ?_, ?_, ?_⟩
  · simp only [VeganShoppingListStrategy.generate]
    exact List.filter_sublist _
  · simp only [GlutenFreeShoppingListStrategy.generate]
    exact List.filter_sublist _
  · intro i hi
    simp only [VeganShoppingListStrategy.generate, List.mem_filter]
    constructor
    · rintro ⟨_, hb⟩
      exact (veganKeep_iff i).mp hb
    · intro hs
      exact ⟨hi, (veganKeep_iff i).mpr hs⟩
  · intro i hi
    simp only [GlutenFreeShoppingListStrategy.generate, List.mem_filter]
    constructor
    · rintro ⟨_, hb⟩
      exact (glutenKeep_iff i).mp hb
    · intro hs
      exact ⟨hi, (glutenKeep_iff i).mpr hs⟩

/-- Claim C3, witness: on the chicken fixture the vegan filter removes the
"Chicken Breast" entry (its lower-cased name contains "chicken") and keeps
the "Garlic" entry. -/
theorem C3_witness :
    (⟨"Chicken Breast", 2, ""⟩ : Ingredient) ∉
        VeganShoppingListStrategy.generate chickenPlan plainRepo ∧
      (⟨"Garlic", 3, "cloves"⟩ : Ingredient) ∈
        VeganShoppingListStrategy.generate chickenPlan plainRepo := by
  have h := (C3_filters_are_denylist_restriction chickenPlan plainRepo).2.2.1
  constructor
  · intro hmem
    have h1 := (h ⟨"Chicken Breast", 2, ""⟩ (by decide)).mp hmem
    exact h1 "chicken" (by decide) ((strIncludes_iff _ _).mp (by decide))
  · exact (h ⟨"Garlic", 3, "cloves"⟩ (by decide)).mpr ((veganKeep_iff _).mp (by decide))

/-- Claim C4: `rate(v)` with `1 ≤ v ≤ 5` appends v to `ratings`, recomputes
the mean and returns true; with v outside the range it returns false and
changes nothing (and, being total, raises no error). On a fresh recipe,
`rate(3)` then `rate(5)` gives rating 4 and two recorded ratings. -/
theorem C4_rate_validation (r : Recipe) (v : ℚ) :
    ((1 ≤ v ∧ v ≤ 5) →
        (r.rate v).1.ratings = r.ratings ++ [v] ∧
        (r.rate v).1.rating =
          (r.ratings ++ [v]).sum / (((r.ratings ++ [v]).length : ℕ) : ℚ) ∧
        (r.rate v).2 = true) ∧
      (¬(1 ≤ v ∧ v ≤ 5) → (r.rate v).1 = r ∧ (r.rate v).2 = false) ∧
      (∀ id title,
        (((Recipe.mk id title [] [] [] [] 0 []).rate 3).1.rate 5).1.rating = 4 ∧
        (((Recipe.mk id title [] [] [] [] 0 []).rate 3).1.rate 5).1.ratings.length = 2) := by
  refine ⟨?_, ?_, ?_⟩
  · intro h
    rw [rate_apply_of_valid h]
    exact ⟨rfl, rfl, rfl⟩
  · intro h
    rw [rate_apply_of_invalid h]
    exact ⟨rfl, rfl⟩
  · intro id title
    rw [rate_apply_of_valid (by norm_num), rate_apply_of_valid (by norm_num)]
    constructor
    · simp
      norm_num
    · rfl

/-- Claim C4, witness: `rate(0)` and `rate(6)` fail without mutating, and the
concrete `rate(3)`/`rate(5)` run reaches rating 4 with two ratings. -/
theorem C4_witness :
    ((Recipe.mk "r" "t" [] [] [] [] 0 []).rate 0).2 = false ∧
      ((Recipe.mk "r" "t" [] [] [] [] 0 []).rate 6).1 = Recipe.mk "r" "t" [] [] [] [] 0 [] ∧
      (((Recipe.mk "r" "t" [] [] [] [] 0 []).rate 3).1.rate 5).1.rating = 4 ∧
      (((Recipe.mk "r" "t" [] [] [] [] 0 []).rate 3).1.rate 5).1.ratings.length = 2 :=
  ⟨((C4_rate_validation (Recipe.mk "r" "t" [] [] [] [] 0 []) 0).2.1 (by decide)).2,
   ((C4_rate_validation (Recipe.mk "r" "t" [] [] [] [] 0 []) 6).2.1 (by decide)).1,
   ((C4_rate_validation (Recipe.mk "r" "t" [] [] [] [] 0 []) 0).2.2 "r" "t").1,
   ((C4_rate_validation (Recipe.mk "r" "t" [] [] [] [] 0 []) 0).2.2 "r" "t").2⟩

/-- Claim C5: starting from a freshly constructed Recipe (rating 0, ratings
empty), after any finite sequence of `rate` calls the `rating` field equals
the arithmetic mean of the `ratings` sequence, or 0 when it is empty. -/
theorem C5_rating_mean_invariant (vs : List ℚ) (id title : String)
    (ings : List Ingredient) (steps tags flags : List String) :
    ratingInvariant (applyRates (Recipe.mk id title ings steps tags flags 0 []) vs) := by
  have h0 : ratingInvariant (Recipe.mk id title ings steps tags flags 0 []) := by
    simp [ratingInvariant]
  exact applyRates_invariant vs h0

/-- Claim C6: aggregation is lenient toward dangling and empty references:
`getRecipeIds` contains exactly the nonempty recipeId values of the plan's
entries (never the empty string), and the basic aggregation of a plan equals
the basic aggregation of the same plan with its empty and unresolvable
references removed — unresolvable ids are skipped silently. -/
theorem C6_lenient_aggregation (p : MealPlan) (repo : RecipeRepo) :
    ("" ∉ p.getRecipeIds) ∧
      (∀ id, id ∈ p.getRecipeIds ↔ id ≠ "" ∧ ∃ e ∈ p.entries, e.recipeId = id) ∧
      BasicShoppingListStrategy.generate p repo =
        BasicShoppingListStrategy.generate
          (MealPlan.mk p.id p.userId p.name
            (p.entries.filter (fun e =>
              e.recipeId != "" && (repo.getRecipe e.recipeId).isSome))
            p.sharedWith) repo := by
  refine ⟨?_, ?_, basic_generate_dangling p repo⟩
  · unfold MealPlan.getRecipeIds
    simp [List.mem_filter]
  · intro id
    unfold MealPlan.getRecipeIds
    simp only [List.mem_filter, List.mem_map, bne_iff_ne, ne_eq]
    constructor
    · rintro ⟨⟨e, he, hrid⟩, hne⟩
      exact ⟨hne, e, he, hrid⟩
    · rintro ⟨hne, e, he, hrid⟩
      exact ⟨⟨e, he, hrid⟩, hne⟩

/-- Claim C6, witness: the plan with an empty and a dangling ("ghost")
reference never lists the empty id, does list "ghost", and aggregates to the
same list as its cleaned-up variant. -/
theorem C6_witness :
    ("" ∉ danglingPlan.getRecipeIds) ∧
      ("ghost" ≠ "" ∧ ∃ e ∈ danglingPlan.entries, e.recipeId = "ghost") ∧
      BasicShoppingListStrategy.generate danglingPlan sampleRepo =
        BasicShoppingListStrategy.generate
          (MealPlan.mk danglingPlan.id danglingPlan.userId danglingPlan.name
            (danglingPlan.entries.filter (fun e =>
              e.recipeId != "" && (sampleRepo.getRecipe e.recipeId).isSome))
            danglingPlan.sharedWith) sampleRepo :=
  ⟨(C6_lenient_aggregation danglingPlan sampleRepo).1,
   ((C6_lenient_aggregation danglingPlan sampleRepo).2.1 "ghost").mp (by decide),
   (C6_lenient_aggregation danglingPlan sampleRepo).2.2⟩

/-- Claim C7: the strategy factory maps "basic", "vegan" and "glutenFree" to
the corresponding strategies, and every other token yields (without error) a
strategy whose result always coincides with the basic strategy's. -/
theorem C7_strategy_selector (p : MealPlan) (repo : RecipeRepo) :
    ShoppingListStrategyFactory.createStrategy "basic" p repo =
        BasicShoppingListStrategy.generate p repo ∧
      ShoppingListStrategyFactory.createStrategy "vegan" p repo =
        VeganShoppingListStrategy.generate p repo ∧
      ShoppingListStrategyFactory.createStrategy "glutenFree" p repo =
        GlutenFreeShoppingListStrategy.generate p repo ∧
      (∀ tok, tok ≠ "basic" → tok ≠ "vegan" → tok ≠ "glutenFree" →
        ShoppingListStrategyFactory.createStrategy tok p repo =
          BasicShoppingListStrategy.generate p repo) := by
  refine ⟨by simp +decide [ShoppingListStrategyFactory.createStrategy],
    by simp +decide [ShoppingListStrategyFactory.createStrategy],
    by simp +decide [ShoppingListStrategyFactory.createStrategy], ?_⟩
  intro tok h1 h2 h3
  simp [ShoppingListStrategyFactory.createStrategy, h1, h2, h3]

/-- Claim C7, witness: the unrecognized token "paleo" behaves exactly like
"basic" on the sample fixture. -/
theorem C7_witness :
    ShoppingListStrategyFactory.createStrategy "paleo" samplePlan sampleRepo =
      BasicShoppingListStrategy.generate samplePlan sampleRepo :=
  (C7_strategy_selector samplePlan sampleRepo).2.2.2 "paleo"
    (by decide) (by decide) (by decide)

/-- Claim C8: the dietary filters depend only on ingredient names: two stores
whose recipes agree after erasing `tags` and `dietaryFlags` produce identical
vegan, gluten-free and basic results for every meal plan — in particular a
recipe flagged "vegan" does not bypass the vegan filter. -/
theorem C8_filters_ignore_dietary_metadata (repo₁ repo₂ : RecipeRepo)
    (h : ∀ id, (repo₁ id).map eraseDietaryMeta = (repo₂ id).map eraseDietaryMeta)
    (p : MealPlan) :
    VeganShoppingListStrategy.generate p repo₁ = VeganShoppingListStrategy.generate p repo₂ ∧
      GlutenFreeShoppingListStrategy.generate p repo₁ =
        GlutenFreeShoppingListStrategy.generate p repo₂ ∧
      BasicShoppingListStrategy.generate p repo₁ =
        BasicShoppingListStrategy.generate p repo₂ := by
  have hb := basic_generate_congr repo₁ repo₂ h p
  refine ⟨?_, ?_, hb⟩
  · simp only [VeganShoppingListStrategy.generate, hb]
  · simp only [GlutenFreeShoppingListStrategy.generate, hb]

/-- Claim C8, witness: flagging the chicken recipe "vegan" changes nothing in
the vegan filter's output. -/
theorem C8_witness :
    VeganShoppingListStrategy.generate chickenPlan taggedRepo =
      VeganShoppingListStrategy.generate chickenPlan plainRepo :=
  (C8_filters_ignore_dietary_metadata taggedRepo plainRepo
    (fun id => by
      by_cases hc : id = "C"
      · simp [taggedRepo, plainRepo, hc, eraseDietaryMeta, taggedChicken, plainChicken]
      · simp [taggedRepo, plainRepo, hc])
    chickenPlan).1

/-- Claim C9, counterexample: with an empty unit the rendering keeps a double
space between amount and name — `trim()` removes only leading and trailing
whitespace, so whitespace is not collapsed to single spaces. -/
theorem C9_counterexample :
    Ingredient.render ⟨"Carrot", 2, ""⟩ = "2  Carrot" ∧
      Ingredient.render ⟨"Carrot", 2, ""⟩ ≠ "2 Carrot" := by
  exact ⟨by decide, by decide⟩

/-- Claim C9 (amended): an Ingredient renders as amount, space, unit, space,
name, with leading and trailing whitespace trimmed;
when the unit is empty the two separator spaces remain adjacent, so the
rendering is the amount, a double space, and the name (trimmed at the ends),
not a single-spaced string. -/
theorem C9_amended_render (i : Ingredient) (h : i.unit = "") :
    i.render = strTrim (toString i.amount ++ "  " ++ i.name) := by
  unfold Ingredient.render
  rw [h]
  rw [String.append_empty,
    show (toString i.amount ++ " " ++ " ") = toString i.amount ++ "  " from by
      rw [String.append_assoc]; rfl]

/-- Claim C9, witness: the amended rendering rule applied to an empty-unit
ingredient. -/
theorem C9_witness :
    Ingredient.render ⟨"Carrot", 2, ""⟩ = strTrim (toString (2 : ℚ) ++ "  " ++ "Carrot") :=
  C9_amended_render ⟨"Carrot", 2, ""⟩ rfl

/-- Claim C10: generating a shopping list with any strategy — basic, vegan,
gluten-free, or whatever the factory returns for an arbitrary token — never
mutates the recipe store: at heap level, every cell allocated before the
call (in particular every cell a stored recipe's ingredient addresses can
point to) is unchanged after the call, and every returned ingredient is a
freshly allocated object, not a reference into any recipe. -/
theorem C10_generate_does_not_mutate_store (p : MealPlan) (repo : HRepo) (h : Heap) :
    HeapFrameOk hGenerate p repo h ∧
      HeapFrameOk hVeganGenerate p repo h ∧
      HeapFrameOk hGlutenFreeGenerate p repo h ∧
      (∀ tok, HeapFrameOk (hCreateStrategy tok) p repo h) := by
  refine ⟨hGenerate_frameOk p repo h, hVeganGenerate_frameOk p repo h,
    hGlutenFreeGenerate_frameOk p repo h, fun tok => ?_⟩
  unfold hCreateStrategy
  by_cases h1 : tok = "basic"
  · rw [if_pos h1]; exact hGenerate_frameOk p repo h
  · rw [if_neg h1]
    by_cases h2 : tok = "vegan"
    · rw [if_pos h2]; exact hVeganGenerate_frameOk p repo h
    · rw [if_neg h2]
      by_cases h3 : tok = "glutenFree"
      · rw [if_pos h3]; exact hGlutenFreeGenerate_frameOk p repo h
      · rw [if_neg h3]; exact hGenerate_frameOk p repo h

/-- Claim C10, witness: on a one-cell heap the stored ingredient object at
address 0 is untouched by the basic, vegan, gluten-free and factory-selected
generations, and the basic strategy's returned addresses are all fresh. -/
theorem C10_witness :
    (hGenerate hPlanW hRepoW heapW).2.cells 0 = heapW.cells 0 ∧
      (hVeganGenerate hPlanW hRepoW heapW).2.cells 0 = heapW.cells 0 ∧
      (hGlutenFreeGenerate hPlanW hRepoW heapW).2.cells 0 = heapW.cells 0 ∧
      (hCreateStrategy "paleo" hPlanW hRepoW heapW).2.cells 0 = heapW.cells 0 ∧
      (∀ a ∈ (hGenerate hPlanW hRepoW heapW).1, heapW.next ≤ a) :=
  ⟨(C10_generate_does_not_mutate_store hPlanW hRepoW heapW).1.1 0 (by decide),
   (C10_generate_does_not_mutate_store hPlanW hRepoW heapW).2.1.1 0 (by decide),
   (C10_generate_does_not_mutate_store hPlanW hRepoW heapW).2.2.1.1 0 (by decide),
   ((C10_generate_does_not_mutate_store hPlanW hRepoW heapW).2.2.2 "paleo").1 0 (by decide),
   (C10_generate_does_not_mutate_store hPlanW hRepoW heapW).1.2.2⟩
